import Mathlib

/-!
Verification development for the homieDl repository.

The repository contains two orchestration engines:
  * `exportify_downloader.py` — a batch CSV downloader with a rate limiter
    (`DownloadRateLimiter`), a persisted completion manifest, and cooperative
    pause/cancel signalling (`threading.Event` pairs);
  * `app/` — a served job runner (`download_job` / `JobManager` / the SSE
    endpoint `job_events`).

This file gives a shallow embedding of the pieces those claims are about and
proves or refutes each claim.  Python strings are modelled as `List Char`
(so `strip`/`lower`/truthiness are fully analysable), timestamps as `ℚ`,
and the blocking loops as fuel-indexed recursions whose observable trace
(sleep durations, outcome) is returned explicitly.  Filesystem and network
collaborators (file-existence probes, yt-dlp, spotdl, YTMusic search) are
oracles passed in as parameters, exactly at the call sites where the Python
code invokes them.
-/

namespace HomieDl

/-- Python strings, modelled as lists of characters. -/
abbrev Str := List Char

/-- The whitespace set recognised by Python's `str.strip()` (the common
ASCII whitespace characters). -/
def isPySpace (c : Char) : Bool :=
  c = ' ' || c = '\t' || c = '\n' || c = '\r' || c = '\x0b' || c = '\x0c'

/-- Python `s.strip()`: drop leading and trailing whitespace. -/
def pyStrip (s : Str) : Str :=
  ((s.dropWhile isPySpace).reverse.dropWhile isPySpace).reverse

/-- Python `s.lower()` (character-wise lowering suffices for the keys here). -/
def pyLower (s : Str) : Str := s.map Char.toLower

/-- Python `sep.join(parts)`. -/
def joinSep (sep : Str) : List Str → Str
  | [] => []
  | [s] => s
  | s :: rest => s ++ sep ++ joinSep sep rest

/-- A row of the Exportify CSV, as read by `read_tracks`
(`exportify_downloader.py`, class `Track`). -/
structure Track where
  title : Str
  artists : Str
  album : Str
deriving DecidableEq, Repr

/-- Source `Track.build_terms` (exportify_downloader.py lines 47-62): raw search
terms; empty when title or artists is empty, otherwise the parts joined by
a space with the literal word `audio` appended. -/
def Track.build_terms (t : Track) (includeAlbum : Bool) : Str :=
  if t.title = [] ∨ t.artists = [] then []
  else
    joinSep " ".data
      (([t.title, t.artists] ++
        (if includeAlbum ∧ t.album ≠ [] then [t.album] else [])) ++ ["audio".data])

/-- Source `Track.identifier` (exportify_downloader.py lines 64-74): the stable key.
Empty when both title and artists are empty; otherwise the stripped,
lowered, non-empty parts joined by a bar separator. -/
def Track.identifier (t : Track) (includeAlbum : Bool) : Str :=
  if t.title = [] ∧ t.artists = [] then []
  else
    joinSep " | ".data
      ((([pyLower (pyStrip t.title), pyLower (pyStrip t.artists)] ++
        (if includeAlbum ∧ t.album ≠ [] then [pyLower (pyStrip t.album)] else [])).filter
          (fun p => p ≠ [])))

/-! ## DownloadRateLimiter, pure mode

`DownloadRateLimiter.wait_for_slot` (exportify_downloader.py lines 88-124)
called with `pause_event=None, cancel_event=None` (the CLI path through
`run_downloader`): the `while True` loop prunes timestamps older than
`now - 3600` from the front of the deque, admits when there is room, and
otherwise sleeps until the oldest timestamp leaves the window and retries.
Time is modelled exactly: after `time.sleep(d)` the clock reads `now + d`.
The loop is fuel-indexed; `none` means the fuel ran out. -/

/-- The pruning `while self._timestamps and self._timestamps[0] <= cutoff:
popleft()` — on a deque this is `dropWhile` from the front. -/
def pruneWindow (now : ℚ) (w : List ℚ) : List ℚ :=
  w.dropWhile (fun t => decide (t ≤ now - 3600))

/-- The `while True` loop of `wait_for_slot` with no pause/cancel events.
Returns the admission time and the window after appending it. -/
def waitLoopNone (cap : ℤ) : Nat → ℚ → List ℚ → Option (ℚ × List ℚ)
  | 0, _, _ => none
  | fuel+1, now, w =>
    let pruned := pruneWindow now w
    if (pruned.length : ℤ) < cap then some (now, pruned ++ [now])
    else
      match pruned with
      | [] => none
      | t0 :: _ => waitLoopNone cap fuel (now + max (t0 + 3600 - now) 0) pruned

/-- Source `wait_for_slot` with both events `None`: the `max_per_hour <= 0` guard
(line 95) returns immediately with the window untouched. -/
def wait_for_slot_noev (cap : ℤ) (fuel : Nat) (now : ℚ) (w : List ℚ) :
    Option (ℚ × List ℚ) :=
  if cap ≤ 0 then some (now, w) else waitLoopNone cap fuel now w

/-- A sequence of `wait_for_slot` calls on one limiter: the i-th call is
made `ds[i]` after the previous admission returned (calls are sequential,
so each call time is at or after the previous admission).  Returns, per
call, the admission time and the window just after that call. -/
def runLimiter (cap : ℤ) : ℚ → List ℚ → List ℚ → List (ℚ × List ℚ)
  | _, _, [] => []
  | now, w, d :: ds =>
    match wait_for_slot_noev cap (w.length + 1) (now + d) w with
    | none => []
    | some (ta, w') => (ta, w') :: runLimiter cap ta w' ds

/-- Predicate: `x` lies in the trailing 3600-second window ending at `t`. -/
def inWindow (t x : ℚ) : Bool := decide (t - 3600 < x) && decide (x ≤ t)

/-- No trailing 3600-second interval contains more than `cap` of the
admission times `A`. -/
def WinOK (cap : ℤ) (A : List ℚ) : Prop :=
  ∀ t : ℚ, (A.countP (inWindow t) : ℤ) ≤ cap

/-! ## wait_for_slot with pause/cancel events

The same loop (lines 88-124) with `pause_event`/`cancel_event` supplied.
The cancel press is modelled as an absolute time `cT` (set for all times
`≥ cT`, `none` = never set), and the pause as an interval that is set from
the start of the call until it clears at time `pu` (`pu ≤ now` = never
paused during the call).  The first component of every result is the list
of sleep durations actually performed, in order. -/

/-- Reading `cancel_event.is_set()` at absolute time `now`. -/
def cancelSet (cT : Option ℚ) (now : ℚ) : Bool :=
  match cT with
  | none => false
  | some tc => decide (tc ≤ now)

/-- Reading `pause_event.is_set()` at absolute time `now`: set until it clears at
`pu`. -/
def pauseSet (pu : ℚ) (now : ℚ) : Bool := decide (now < pu)

inductive PauseOut where
  | resumed (t : ℚ)
  | cancelledP (t : ℚ)
  | outP
deriving DecidableEq, Repr

/-- The pause-poll loop shared by `wait_if_paused` (download_tracks, lines
490-494) and the inner loop of `wait_for_slot` (lines 102-105):
`while pause.is_set(): if cancel.is_set(): raise; time.sleep(0.1)`.
Returns the 0.1-second sleeps performed and the outcome. -/
def pauseWait (pu : ℚ) (cT : Option ℚ) : Nat → ℚ → List ℚ × PauseOut
  | 0, now => if pauseSet pu now then ([], .outP) else ([], .resumed now)
  | f+1, now =>
    if pauseSet pu now then
      if cancelSet cT now then ([], .cancelledP now)
      else
        let r := pauseWait pu cT f (now + 1/10)
        ((1/10 : ℚ) :: r.1, r.2)
    else ([], .resumed now)

inductive SlotOut where
  | ret (t : ℚ) (w : List ℚ)        -- max_per_hour ≤ 0: immediate return, window untouched
  | admitted (t : ℚ) (w : List ℚ)   -- appended t, returned
  | cancelledS (t : ℚ)              -- DownloadCancelled raised at time t
  | outS                            -- fuel ran out
deriving DecidableEq, Repr

/-- The `while True` loop of `wait_for_slot` with events supplied: cancel
check at the loop top, the pause-poll loop, prune, admit or sleep the full
computed delay and retry. -/
def waitLoopEv (cap : ℤ) (pu : ℚ) (cT : Option ℚ) (pfuel : Nat) :
    Nat → ℚ → List ℚ → List ℚ × SlotOut
  | 0, _, _ => ([], .outS)
  | f+1, now, w =>
    if cancelSet cT now then ([], .cancelledS now)
    else
      match pauseWait pu cT pfuel now with
      | (ds, .cancelledP t) => (ds, .cancelledS t)
      | (ds, .outP) => (ds, .outS)
      | (ds, .resumed t) =>
        let pruned := pruneWindow t w
        if (pruned.length : ℤ) < cap then (ds, .admitted t (pruned ++ [t]))
        else
          match pruned with
          | [] => (ds, .outS)
          | t0 :: _ =>
            let d := max (t0 + 3600 - t) 0
            let r := waitLoopEv cap pu cT pfuel f (t + d) pruned
            (ds ++ d :: r.1, r.2)

/-- Source `DownloadRateLimiter.wait_for_slot` with events: the `max_per_hour <= 0`
guard returns immediately — before reading either event — with the window
untouched. -/
def wait_for_slot (cap : ℤ) (pu : ℚ) (cT : Option ℚ) (pfuel fuel : Nat)
    (now : ℚ) (w : List ℚ) : List ℚ × SlotOut :=
  if cap ≤ 0 then ([], .ret now w) else waitLoopEv cap pu cT pfuel fuel now w

/-! ## download_tracks

The per-item body (lines 515-625) with the collaborators as oracles: the
candidate-extension filesystem probe collapses to the first existing
candidate path (or none), the YTMusic search to its optional
(url, matched-title) result, and `downloader.extract_info` to the shape of
what it returns.  The rate-limiter wait is abstracted to its outcome for
this item (admitted, or cancel observed during the wait); the limiter
itself is modelled exactly above. -/

/-- Shape of `extract_info`'s return value: falsy, a dict (with an optional
final filepath and an optional `entries` list), or a plain list.  Each
element of an entries list is that entry's `filepath`/`_filename` when it is
a dict carrying one, and `none` otherwise (non-dict entries and dicts
without a filepath both record nothing). -/
inductive YInfo where
  | noneI
  | dictI (filepath : Option Str) (entries : Option (List (Option Str)))
  | listI (entries : List (Option Str))
deriving DecidableEq, Repr

inductive FetchRes where
  | ok (info : YInfo)
  | downloadError
  | attributeError
deriving DecidableEq, Repr

/-- Per-item oracle. -/
structure ItemEnv where
  fileExists : Option Str
  search : Option (Str × Option Str)
  waitCancelled : Bool
  fetch : FetchRes
deriving DecidableEq, Repr

structure DtCfg where
  includeAlbum : Bool
  dryRun : Bool
  ytmusicAvailable : Bool
  sanitize : Str → Str
  total : Option Nat
  startIndex : Nat

/-- State: `downloaded_entries` and `existing_track_keys` of `download_tracks`. -/
structure DtSt where
  entries : List (Str × Str)
  keys : List Str
deriving DecidableEq, Repr

inductive DtEv where
  | log (s : Str)
  | start (i : Nat) (total : Nat) (d : Str)
  | finish (i : Nat) (total : Nat) (d : Str)
  | error (i : Nat) (total : Nat) (d : Str)
deriving DecidableEq, Repr

/-- Value `resolved_total or 0` as passed to the progress callback. -/
def evTotal (cfg : DtCfg) : Nat := cfg.total.getD 0

/-- Source `record_filepath` (lines 594-599): append the entry and remember the key
only when the key is truthy. -/
def record_filepath (key : Str) (st : DtSt) (fp : Option Str) : DtSt :=
  match fp with
  | some p =>
    ⟨st.entries ++ [(p, key)], if key ≠ [] then st.keys ++ [key] else st.keys⟩
  | none => st

/-- Lines 601-612: dispatch on the shape of `info`; a dict with a truthy
(non-empty) `entries` list records each entry, otherwise the dict itself;
a plain list records each element. -/
def recordInfo (key : Str) (st : DtSt) (info : YInfo) : DtSt :=
  match info with
  | .noneI => st
  | .dictI fp entries =>
    match entries with
    | some es =>
      if es = [] then record_filepath key st fp
      else es.foldl (record_filepath key) st
    | none => record_filepath key st fp
  | .listI es => es.foldl (record_filepath key) st

/-- One iteration of the `for index, track in enumerate(...)` body (lines
515-625), after the loop-top cancel check and `wait_if_paused`.  Returns
the new state, the emitted events (prints and progress callbacks, in
order), and whether `DownloadCancelled` was raised inside the item (cancel
observed during the rate-limit wait). -/
def processItem (cfg : DtCfg) (st : DtSt) (i : Nat) (t : Track) (env : ItemEnv) :
    DtSt × List DtEv × Bool :=
  let key := t.identifier cfg.includeAlbum
  let terms := t.build_terms cfg.includeAlbum
  if terms = [] then
    (st, [.log "Skipping row with missing track and artist info.".data], false)
  else
    let query := "ytsearch5:".data ++ terms
    let display := query
    let sanitized := cfg.sanitize t.title
    match (if sanitized ≠ [] then env.fileExists else none) with
    | some p =>
      let st1 : DtSt :=
        ⟨st.entries ++ [(p, key)], if key ≠ [] then st.keys ++ [key] else st.keys⟩
      (st1,
       [.log ("Skipping already downloaded track (file exists): ".data ++ p),
        .finish i (evTotal cfg) ("Skipped: ".data ++ display)], false)
    | none =>
      if key ≠ [] ∧ key ∈ st.keys then
        (st, [.log ("Skipping already downloaded track: ".data ++ terms),
              .finish i (evTotal cfg) ("Skipped: ".data ++ display)], false)
      else
        let qd :=
          match (if cfg.ytmusicAvailable then env.search else none) with
          | some (url, mt) => (url, mt.getD url)
          | none => (query, display)
        let evs0 : List DtEv :=
          [.start i (evTotal cfg) qd.2,
           .log ("Searching and downloading: ".data ++ qd.2)]
        if cfg.dryRun then (st, evs0 ++ [.finish i (evTotal cfg) qd.2], false)
        else if env.waitCancelled then (st, evs0, true)
        else
          match env.fetch with
          | .ok .noneI => (st, evs0, false)
          | .ok info =>
            (recordInfo key st info, evs0 ++ [.finish i (evTotal cfg) qd.2], false)
          | .downloadError =>
            (st, evs0 ++ [.log ("Failed to download ".data ++ qd.1),
                          .error i (evTotal cfg) ("Failed: ".data ++ qd.2)], false)
          | .attributeError =>
            (st, evs0 ++ [.log ("Skipped malformed download result for ".data ++ qd.2),
                          .error i (evTotal cfg) ("Skipped: ".data ++ qd.2)], false)

/-- The loop-top cancel check (line 516): the controller set the cancel
event just before the item at position `c` was reached, and the event stays
set. -/
def cancelAtPos (cancelAt : Option Nat) (p : Nat) : Bool :=
  match cancelAt with
  | none => false
  | some c => decide (c ≤ p)

/-- The `for` loop of `download_tracks`: `p` is the 0-based position in the
remaining list; emitted events accumulate in order; the Bool records a
propagating `DownloadCancelled`. -/
def dtLoop (cfg : DtCfg) (cancelAt : Option Nat) :
    List (Track × ItemEnv) → Nat → DtSt → DtSt × List DtEv × Bool
  | [], _, st => (st, [], false)
  | (t, env) :: rest, p, st =>
    if cancelAtPos cancelAt p then (st, [], true)
    else
      let r := processItem cfg st (cfg.startIndex + p) t env
      if r.2.2 then (r.1, r.2.1, true)
      else
        let r2 := dtLoop cfg cancelAt rest (p + 1) r.1
        (r2.1, r.2.1 ++ r2.2.1, r2.2.2)

/-- Source `download_tracks` (lines 469-626) over its track list, given the initial
`existing_track_keys`.  When the Bool is true, `DownloadCancelled`
propagated and the returned entries are the internal list the exception
discards. -/
def download_tracks (cfg : DtCfg) (cancelAt : Option Nat)
    (items : List (Track × ItemEnv)) (keys0 : List Str) :
    DtSt × List DtEv × Bool :=
  dtLoop cfg cancelAt items 0 ⟨[], keys0⟩

/-! ## run_downloader_for_csv -/

/-- Path-suffix operations of `pathlib` (`.suffix`, `.with_suffix`),
supplied as oracles. -/
structure PathOps where
  suffix : Str → Str
  withSuffix : Str → Str → Str

/-- Source `resolve_entry_path` (lines 629-641). -/
def resolve_entry_path (ops : PathOps) (ex : Str → Bool) (audioFormat : Str)
    (p : Str) : Str :=
  if audioFormat = "best".data then p
  else
    let target := '.' :: audioFormat
    if pyLower (ops.suffix p) ≠ pyLower target then
      let candidate := ops.withSuffix p target
      if ex candidate then candidate else p
    else p

/-- The reconciliation loop of `run_downloader_for_csv` (lines 749-758):
keep exactly the manifest entries whose stored path — resolved against the
playlist directory when relative — passes the existence probe; the kept
keys seed `existing_track_keys`. -/
def reconcileManifest (playlistDir : Str) (isAbs : Str → Bool)
    (ex : Str → Bool) (manifest : List (Str × Str)) :
    List (Str × Str) × List Str :=
  let cleaned := manifest.filter
    (fun kv => ex (if isAbs kv.2 then kv.2 else playlistDir ++ '/' :: kv.2))
  (cleaned, cleaned.map Prod.fst)

/-- Python dict assignment `m[k] = v` on an insertion-ordered mapping. -/
def manifestSet (m : List (Str × Str)) (k v : Str) : List (Str × Str) :=
  if m.any (fun kv => decide (kv.1 = k)) then
    m.map (fun kv => if kv.1 = k then (k, v) else kv)
  else m ++ [(k, v)]

/-- Value `str(final_path.relative_to(playlist_dir))` with the `ValueError`
fallback to the absolute path (lines 821-824). -/
def stored_path (relTo : Str → Option Str) (p : Str) : Str := (relTo p).getD p

/-- The persistence loop (lines 817-828): for each resolved entry whose key
is truthy and whose final path exists, merge it into the cleaned manifest
and call `save_download_manifest`.  Returns the successive payloads of
those save calls. -/
def persistLoop (ex2 : Str → Bool) (relTo : Str → Option Str) :
    List (Str × Str) → List (Str × Str) → List (List (Str × Str))
  | _, [] => []
  | m, (fp, k) :: rest =>
    if k ≠ [] ∧ ex2 fp then
      let m1 := manifestSet m k (stored_path relTo fp)
      m1 :: persistLoop ex2 relTo m1 rest
    else persistLoop ex2 relTo m rest

structure CsvRes where
  code : Nat
  saves : List (List (Str × Str))
  events : List DtEv

/-- Source `run_downloader_for_csv` (lines 731-830), from the manifest-cleanup
step: reconcile, run `download_tracks`, and — only when no
`DownloadCancelled` propagated — resolve the entry paths and run the
persistence loop.  `saves` is the sequence of `save_download_manifest`
payloads (empty = the manifest file is never written). -/
def run_downloader_for_csv (cfg : DtCfg) (ops : PathOps)
    (isAbs exrec ex2 : Str → Bool) (relTo : Str → Option Str)
    (audioFormat : Str) (playlistDir : Str)
    (manifest : List (Str × Str)) (items : List (Track × ItemEnv))
    (cancelAt : Option Nat) : CsvRes :=
  let rk := reconcileManifest playlistDir isAbs exrec manifest
  if items = [] then ⟨0, [], []⟩
  else
    let r := download_tracks cfg cancelAt items rk.2
    if r.2.2 then ⟨1, [], r.2.1⟩
    else
      let resolved := r.1.entries.map
        (fun e => (resolve_entry_path ops ex2 audioFormat e.1, e.2))
      ⟨0, persistLoop ex2 relTo rk.1 resolved, r.2.1⟩

/-! ## load_download_manifest -/

inductive JVal where
  | jnull
  | jbool (b : Bool)
  | jnum (n : ℤ)
  | jstr (s : Str)
  | jarr (elems : List JVal)
  | jobj (fields : List (Str × JVal))

/-- What opening and JSON-decoding the manifest file does, case-split on
the exception class it raises (Python distinguishes them): `OSError` and
`json.JSONDecodeError` are the two classes the `except` clause at line 654
names; a file whose bytes are not valid UTF-8 makes the text-mode read
inside `json.load` raise `UnicodeDecodeError`, which is neither. -/
inductive ManifestRead where
  | missing
  | osError (msg : Str)
  | jsonDecodeError (msg : Str)
  | unicodeDecodeError (msg : Str)
  | parsed (j : JVal)

/-- Source `load_download_manifest` (lines 644-656).  `Except.error` = an
exception escapes the function. -/
def load_download_manifest : ManifestRead → Except Str (List (Str × JVal))
  | .missing => .ok []
  | .osError _ => .ok []
  | .jsonDecodeError _ => .ok []
  | .unicodeDecodeError m => .error m
  | .parsed j =>
    match j with
    | .jobj fields => .ok fields
    | _ => .ok []

/-! ## The served job runner (app/downloader.py) -/

inductive JobStatus where
  | queued
  | running
  | completed
  | failed
deriving DecidableEq, Repr

structure Song where
  url : Str
  name : Str
  artists : List Str
deriving DecidableEq, Repr

/-- Source `get_artist_name`: artists are modelled already as names. -/
def get_artist_name (a : Str) : Str := a

/-- Source `build_track_id` (app/downloader.py lines 68-70). -/
def build_track_id (s : Song) : Str :=
  if s.url ≠ [] then s.url
  else get_artist_name (s.artists.headD "unknown".data) ++ "-".data ++ s.name

/-- Source `requires_user_auth` (app/downloader.py lines 73-75). -/
def requires_user_auth (url : Str) : Bool :=
  let normalized := pyLower url
  decide (List.IsInfix "open.spotify.com/user".data normalized) ||
  decide (List.IsInfix "/user/".data normalized) ||
  decide (List.IsInfix "/users/".data normalized)

structure TrackSt where
  title : Str
  artist : Str
  status : Str
  message : Option Str
  path : Option Str
deriving DecidableEq, Repr

structure JobSt where
  status : JobStatus
  error : Option Str
  tracks : List (Str × TrackSt)
  logs : List Str
deriving DecidableEq, Repr

def tracksSetdefault (m : List (Str × TrackSt)) (k : Str) (v : TrackSt) :
    List (Str × TrackSt) :=
  if m.any (fun kv => decide (kv.1 = k)) then m else m ++ [(k, v)]

def tracksUpdate (m : List (Str × TrackSt)) (k : Str) (f : TrackSt → TrackSt) :
    List (Str × TrackSt) :=
  m.map (fun kv => if kv.1 = k then (kv.1, f kv.2) else kv)

inductive SearchOut where
  | okS (songs : List Song)
  | exnS (msg : Str)

/-- One element of `spotdl_client.download_songs`'s result list after the
`isinstance(result, tuple) and len(result) == 2` check: not a pair, or a
pair carrying the optional downloaded path. -/
inductive DlResult where
  | notPair
  | pair (path : Option Str)
deriving DecidableEq, Repr

inductive DlOut where
  | okD (results : List DlResult)
  | exnD (msg : Str)

def artistsJoin (l : List Str) : Str := joinSep ", ".data (l.map get_artist_name)

/-- The `for song in songs` loop building `track_order` (app/downloader.py
lines 149-161): `setdefault` then set the (existing or fresh) track's
status to pending. -/
def buildTrackOrder (songs : List Song) (tracks0 : List (Str × TrackSt)) :
    List (Str × TrackSt) × List (Str × Song) :=
  songs.foldl
    (fun acc s =>
      let tid := build_track_id s
      let m1 := tracksSetdefault acc.1 tid
        ⟨s.name, artistsJoin s.artists, "pending".data, none, none⟩
      let m2 := tracksUpdate m1 tid (fun tr => { tr with status := "pending".data })
      (m2, acc.2 ++ [(tid, s)]))
    (tracks0, [])

/-- Lines 163-164: mark every ordered track downloading. -/
def markDownloading (m : List (Str × TrackSt)) (order : List (Str × Song)) :
    List (Str × TrackSt) :=
  order.foldl
    (fun acc ts => tracksUpdate acc ts.1
      (fun tr => { tr with status := "downloading".data })) m

/-- The per-result body of the `zip(track_order, results)` loop (lines
180-211). -/
def applyResult (j : JobSt) (tid : Str) (r : DlResult) : JobSt :=
  match r with
  | .notPair =>
    { j with
      tracks := tracksUpdate j.tracks tid (fun tr =>
        { tr with status := "failed".data,
                  message := some "Unexpected download result".data }),
      logs := j.logs ++ [("Failed ".data ++ tid ++ ": unexpected result from downloader".data)] }
  | .pair none =>
    { j with
      tracks := tracksUpdate j.tracks tid (fun tr =>
        { tr with status := "failed".data,
                  message := some "No file path returned".data }),
      logs := j.logs ++ [("Failed ".data ++ tid ++ ": no file path returned".data)] }
  | .pair (some p) =>
    { j with
      tracks := tracksUpdate j.tracks tid (fun tr =>
        { tr with status := "downloaded".data, message := none, path := some p }),
      logs := j.logs ++ [("Finished ".data ++ tid)] }

/-- The terminal-state decision of `download_job` (app/downloader.py lines
213-218): `completed` when at least one track downloaded, otherwise
`failed` with `All tracks failed to download`. -/
def finishJob (j3 : JobSt) : JobSt :=
  if j3.tracks.any (fun kv => decide (kv.2.status = "downloaded".data)) then
    { j3 with status := JobStatus.completed }
  else
    { j3 with status := JobStatus.failed,
              error := some "All tracks failed to download".data }

/-- Source `download_job` from the point where the song list is resolved (app
lines 141-218): empty list fails the run; otherwise build the track order,
mark everything downloading, and either fail every ordered track (a raising
`download_songs`) or apply each zipped result and decide the terminal
state. -/
def download_job_resolved (songs : List Song) (dlOut : DlOut) (j1 : JobSt) :
    JobSt :=
  if songs = [] then
    { j1 with status := JobStatus.failed,
              error := some "No tracks resolved from the provided URL".data,
              logs := j1.logs ++ ["No tracks resolved from the provided URL".data] }
  else
    let bo := buildTrackOrder songs j1.tracks
    let m2 := markDownloading bo.1 bo.2
    let j2 := { j1 with tracks := m2,
                        logs := j1.logs ++ ["Downloading tracks...".data] }
    match dlOut with
    | .exnD msg =>
      let mfail := bo.2.foldl
        (fun acc ts => tracksUpdate acc ts.1 (fun tr =>
          { tr with status := "failed".data, message := some msg })) m2
      { j2 with tracks := mfail, status := JobStatus.failed,
                error := some msg,
                logs := j2.logs ++ [("Job failed: ".data ++ msg)] }
    | .okD results =>
      let j3 := ((bo.2.map Prod.fst).zip results).foldl
        (fun acc pr => applyResult acc pr.1 pr.2) j2
      finishJob j3

/-- Source `download_job` (app/downloader.py lines 120-218) with the spotdl/spotify
collaborators as oracles.  `Except.error` = the `DownloadError` raise for
user-library URLs without credentials (caught by `run_job`). -/
def download_job (requiresAuth hasCreds : Bool) (searchOut : SearchOut)
    (dlOut : DlOut) (job0 : JobSt) : Except Str JobSt :=
  if requiresAuth ∧ ¬ hasCreds then
    .error "Spotify user-library URLs require client credentials.".data
  else
    let j1 := { job0 with status := JobStatus.running,
                          logs := job0.logs ++ ["Starting search...".data] }
    match searchOut with
    | .exnS msg =>
      .ok { j1 with status := JobStatus.failed, error := some msg,
                    logs := j1.logs ++ [("Job failed: ".data ++ msg)] }
    | .okS songs => .ok (download_job_resolved songs dlOut j1)

/-- Source `run_job` (lines 221-229): the catch-all that turns an escaping
exception into a failed job. -/
def run_job (requiresAuth hasCreds : Bool) (searchOut : SearchOut)
    (dlOut : DlOut) (job0 : JobSt) : JobSt :=
  match download_job requiresAuth hasCreds searchOut dlOut job0 with
  | .ok j => j
  | .error m =>
    { job0 with status := JobStatus.failed, error := some m,
                logs := job0.logs ++ [("Job failed: ".data ++ m)] }

/-! ## The SSE event stream (app/main.py `job_events`) -/

inductive SseEv where
  | snapshot (v : JobStatus)
  | update (v : JobStatus)
deriving DecidableEq, Repr

inductive StreamEnd where
  | awaiting   -- the generator is parked on `await queue.get()`
  | closed     -- the generator returned; no code path produces this
deriving DecidableEq, Repr

/-- The `while True` loop of `event_stream`: one update per consumed queue
signal, then parked on the next `await queue.get()`. -/
def streamLoop : List JobStatus → List SseEv × StreamEnd
  | [] => ([], .awaiting)
  | v :: rest =>
    let r := streamLoop rest
    (.update v :: r.1, r.2)

/-- The `event_stream` generator of `job_events` (app/main.py lines
96-106): subscribe, yield one snapshot, then loop forever.  `views` is the
job's serialized state at each successive wake-up (each `_broadcast`).
There is no terminal-state check anywhere in the generator. -/
def job_events (initial : JobStatus) (views : List JobStatus) :
    List SseEv × StreamEnd :=
  let r := streamLoop views
  (SseEv.snapshot initial :: r.1, r.2)

/-- The item index carried by a progress event (`none` for plain prints). -/
def evIndex : DtEv → Option Nat
  | .log _ => none
  | .start i _ _ => some i
  | .finish i _ _ => some i
  | .error i _ _ => some i

/-! ## Concrete fixtures used by witnesses and counterexamples -/

/-- A download_tracks configuration: include the album, no dry run, no
YTMusic client, identity sanitizer, unknown total, start index 1. -/
def cfgWit : DtCfg := ⟨true, false, false, fun s => s, none, 1⟩

/-- A CSV row whose title and artists are a single space each. -/
def trackBlank : Track := ⟨" ".data, " ".data, []⟩

/-- An item whose fetch succeeds with one recorded file. -/
def envFetchOne : ItemEnv := ⟨none, none, false, .ok (.dictI (some "f1.mp3".data) none)⟩

def trackA : Track := ⟨"a".data, "b".data, []⟩

def trackB : Track := ⟨"c".data, "d".data, []⟩

def opsWit : PathOps := ⟨fun _ => [], fun p _ => p⟩

def itemsC2 : List (Track × ItemEnv) := [(trackA, envFetchOne), (trackB, envFetchOne)]

def absNone : Str → Bool := fun _ => false

def exAll : Str → Bool := fun _ => true

def exNone : Str → Bool := fun _ => false

def relNone : Str → Option Str := fun _ => none

def manWit : List (Str × Str) := [("k".data, "x".data), ("k2".data, "y".data)]

def exWit : Str → Bool := fun p => decide (p = "d/x".data)

theorem joinSep_ne_nil_of_mem_ne_nil (sep : Str) (l : List Str) (s : Str)
    (hs : s ∈ l) (hne : s ≠ []) : joinSep sep l ≠ [] := by
  induction l with
  | nil => cases hs
  | cons a rest ih =>
    cases rest with
    | nil =>
      simp only [List.mem_singleton] at hs
      simpa [joinSep, hs] using hne
    | cons b rest2 =>
      simp only [joinSep]
      rcases List.mem_cons.1 hs with h | h
      · subst h
        intro hcontra
        rcases List.append_eq_nil.1 hcontra with ⟨h1, _⟩
        rcases List.append_eq_nil.1 h1 with ⟨h2, _⟩
        exact hne h2
      · intro hcontra
        rcases List.append_eq_nil.1 hcontra with ⟨_, h2⟩
        exact ih h h2

theorem joinSep_eq_nil_iff (sep : Str) (l : List Str)
    (h : ∀ s ∈ l, s ≠ []) : joinSep sep l = [] ↔ l = [] := by
  constructor
  · intro hj
    by_contra hne
    rcases List.exists_mem_of_ne_nil l hne with ⟨s, hs⟩
    exact joinSep_ne_nil_of_mem_ne_nil sep l s hs (h s hs) hj
  · intro hl; subst hl; rfl

theorem head_dropWhile_false {α : Type} {p : α → Bool} :
    ∀ {l : List α} {a : α} {rest : List α},
    l.dropWhile p = a :: rest → p a = false := by
  intro l
  induction l with
  | nil => intro a rest h; simp [List.dropWhile] at h
  | cons x xs ih =>
    intro a rest h
    by_cases hx : p x
    · rw [List.dropWhile_cons_of_pos hx] at h
      exact ih h
    · rw [List.dropWhile_cons_of_neg hx] at h
      cases h
      simpa using hx

theorem dropWhile_le_eq_filter (c : ℚ) :
    ∀ w : List ℚ, List.Pairwise (· ≤ ·) w →
    w.dropWhile (fun t => decide (t ≤ c)) = w.filter (fun t => decide (c < t)) := by
  intro w
  induction w with
  | nil => intro _; rfl
  | cons a l ih =>
    intro hw
    rcases List.pairwise_cons.1 hw with ⟨ha, hl⟩
    by_cases hac : a ≤ c
    · rw [List.dropWhile_cons_of_pos (by simpa using hac)]
      rw [List.filter_cons_of_neg (by simpa using not_lt.2 hac)]
      exact ih hl
    · rw [List.dropWhile_cons_of_neg (by simpa using hac)]
      rw [List.filter_cons_of_pos (by simpa using not_le.1 hac)]
      congr 1
      refine (List.filter_eq_self.2 ?_).symm
      intro x hx
      have : a ≤ x := ha x hx
      simpa using lt_of_lt_of_le (not_le.1 hac) this

theorem filter_gt_filter_gt (c1 c2 : ℚ) (h : c1 ≤ c2) (w : List ℚ) :
    (w.filter (fun x => decide (c1 < x))).filter (fun x => decide (c2 < x)) =
      w.filter (fun x => decide (c2 < x)) := by
  rw [List.filter_filter]
  refine List.filter_congr ?_
  intro x _
  by_cases hx : c2 < x
  · simp [hx, lt_of_le_of_lt h hx]
  · simp [hx]

theorem waitLoopNone_spec (cap : ℤ) :
    ∀ (fuel : Nat) (now : ℚ) (w : List ℚ) (ta : ℚ) (w' : List ℚ),
    List.Pairwise (· ≤ ·) w → (∀ x ∈ w, x ≤ now) →
    waitLoopNone cap fuel now w = some (ta, w') →
    now ≤ ta ∧ ((w.filter (fun x => decide (ta - 3600 < x))).length : ℤ) < cap ∧
      w' = w.filter (fun x => decide (ta - 3600 < x)) ++ [ta] := by
  intro fuel
  induction fuel with
  | zero => intro now w ta w' _ _ h; simp [waitLoopNone] at h
  | succ f ih =>
    intro now w ta w' hw hle h
    rw [waitLoopNone] at h
    have hprune : pruneWindow now w = w.filter (fun t => decide (now - 3600 < t)) :=
      dropWhile_le_eq_filter _ w hw
    by_cases hroom : ((pruneWindow now w).length : ℤ) < cap
    · rw [if_pos hroom] at h
      injection h with h1
      injection h1 with hta hw'
      subst hta
      refine ⟨le_refl _, ?_, ?_⟩
      · rw [← hprune]; exact hroom
      · rw [← hw', hprune]
    · rw [if_neg hroom] at h
      rcases hpr : pruneWindow now w with _ | ⟨t0, rest⟩
      · rw [hpr] at h; exact absurd h (by simp)
      · rw [hpr] at h
        have ht0 : ¬ (t0 ≤ now - 3600) := by
          have := head_dropWhile_false (p := fun t : ℚ => decide (t ≤ now - 3600)) hpr
          simpa using this
        have hslp : now + max (t0 + 3600 - now) 0 = t0 + 3600 := by
          have : (0:ℚ) ≤ t0 + 3600 - now := by linarith [not_le.1 ht0]
          rw [max_eq_left this]; ring
        replace h : waitLoopNone cap f (now + max (t0 + 3600 - now) 0) (t0 :: rest) =
            some (ta, w') := h
        rw [hslp] at h
        have hwpr : List.Pairwise (· ≤ ·) (t0 :: rest) := by
          rw [← hpr]
          exact hw.sublist (List.dropWhile_sublist _)
        have hlepr : ∀ x ∈ (t0 :: rest), x ≤ t0 + 3600 := by
          intro x hx
          have hxw : x ∈ w := by
            have : x ∈ pruneWindow now w := by rw [hpr]; exact hx
            exact (List.dropWhile_sublist _).subset this
          have h1 : x ≤ now := hle x hxw
          linarith [not_le.1 ht0]
        rcases ih (t0 + 3600) (t0 :: rest) ta w' hwpr hlepr h with ⟨hta, hcnt, hw'⟩
        have hnow : now ≤ ta := by linarith [not_le.1 ht0]
        have hcut : now - 3600 ≤ ta - 3600 := by linarith
        have hcomp :
            (t0 :: rest).filter (fun x => decide (ta - 3600 < x)) =
              w.filter (fun x => decide (ta - 3600 < x)) := by
          rw [← hpr, hprune, filter_gt_filter_gt _ _ hcut]
        refine ⟨hnow, ?_, ?_⟩
        · rw [← hcomp]; exact hcnt
        · rw [hw', hcomp]

theorem waitLoopNone_isSome (cap : ℤ) (hcap : 1 ≤ cap) :
    ∀ (fuel : Nat) (now : ℚ) (w : List ℚ),
    (pruneWindow now w).length + 1 ≤ fuel →
    (waitLoopNone cap fuel now w).isSome := by
  intro fuel
  induction fuel with
  | zero => intro now w hf; omega
  | succ f ih =>
    intro now w hf
    rw [waitLoopNone]
    by_cases hroom : ((pruneWindow now w).length : ℤ) < cap
    · rw [if_pos hroom]; rfl
    · rw [if_neg hroom]
      rcases hpr : pruneWindow now w with _ | ⟨t0, rest⟩
      · exfalso
        rw [hpr] at hroom
        simp at hroom
        omega
      · have ht0 : ¬ (t0 ≤ now - 3600) := by
          have := head_dropWhile_false (p := fun t : ℚ => decide (t ≤ now - 3600)) hpr
          simpa using this
        have hslp : now + max (t0 + 3600 - now) 0 = t0 + 3600 := by
          have : (0:ℚ) ≤ t0 + 3600 - now := by linarith [not_le.1 ht0]
          rw [max_eq_left this]; ring
        show (waitLoopNone cap f (now + max (t0 + 3600 - now) 0) (t0 :: rest)).isSome = true
        rw [hslp]
        apply ih
        have hcut : t0 + 3600 - (3600:ℚ) = t0 := by ring
        have hdrop : pruneWindow (t0 + 3600) (t0 :: rest) =
            rest.dropWhile (fun t => decide (t ≤ t0)) := by
          unfold pruneWindow
          simp only [hcut]
          rw [List.dropWhile_cons_of_pos (by simp)]
        rw [hdrop]
        have h1 : (rest.dropWhile (fun t => decide (t ≤ t0))).length ≤ rest.length :=
          (List.dropWhile_sublist _).length_le
        have h2 : (t0 :: rest).length ≤ (pruneWindow now w).length := by
          rw [hpr]
        simp only [List.length_cons] at h2
        omega

theorem runLimiter_inv (cap : ℤ) (hcap : 1 ≤ cap) :
    ∀ (ds : List ℚ) (now : ℚ) (w A : List ℚ),
    (∀ d ∈ ds, 0 ≤ d) →
    List.Pairwise (· ≤ ·) A →
    (∀ x ∈ A, x ≤ now) →
    (∃ c, c ≤ now ∧ w = A.filter (fun x => decide (c - 3600 < x))) →
    WinOK cap A →
    (∀ s ∈ runLimiter cap now w ds, (s.2.length : ℤ) ≤ cap ∧ List.Pairwise (· ≤ ·) s.2) ∧
    List.Pairwise (· ≤ ·) (A ++ (runLimiter cap now w ds).map Prod.fst) ∧
    WinOK cap (A ++ (runLimiter cap now w ds).map Prod.fst) ∧
    (runLimiter cap now w ds).length = ds.length := by
  intro ds
  induction ds with
  | nil =>
    intro now w A _ hA hAle _ hWin
    refine ⟨by simp [runLimiter], by simpa [runLimiter] using hA,
      by simpa [runLimiter] using hWin, by simp [runLimiter]⟩
  | cons d ds ih =>
    intro now w A hds hA hAle hwA hWin
    rcases hwA with ⟨c, hc, hwc⟩
    have hd0 : 0 ≤ d := hds d (List.mem_cons_self _ _)
    have hds' : ∀ x ∈ ds, 0 ≤ x := fun x hx => hds x (List.mem_cons_of_mem _ hx)
    have hwPair : List.Pairwise (· ≤ ·) w := hwc ▸ hA.filter _
    have hwle : ∀ x ∈ w, x ≤ now + d := by
      intro x hx
      rw [hwc] at hx
      have : x ∈ A := List.mem_of_mem_filter hx
      linarith [hAle x this]
    have hfuel : (pruneWindow (now + d) w).length + 1 ≤ w.length + 1 := by
      have hsub : List.Sublist (w.dropWhile (fun t : ℚ => decide (t ≤ now + d - 3600))) w :=
        List.dropWhile_sublist _
      have := hsub.length_le
      unfold pruneWindow
      omega
    have hsome := waitLoopNone_isSome cap hcap (w.length + 1) (now + d) w hfuel
    have hne : ¬ cap ≤ 0 := by omega
    rcases Option.isSome_iff_exists.1 hsome with ⟨⟨ta, w'⟩, hcall⟩
    have hrun : runLimiter cap now w (d :: ds) =
        (ta, w') :: runLimiter cap ta w' ds := by
      rw [runLimiter]
      rw [show wait_for_slot_noev cap (w.length + 1) (now + d) w = some (ta, w') by
        rw [wait_for_slot_noev, if_neg hne]; exact hcall]
    rcases waitLoopNone_spec cap (w.length + 1) (now + d) w ta w' hwPair hwle hcall with
      ⟨htaige, hroom, hw'⟩
    have hnow_ta : now ≤ ta := by linarith
    -- transfer the room bound from the window to the full admission list
    have hwfilter : w.filter (fun x => decide (ta - 3600 < x)) =
        A.filter (fun x => decide (ta - 3600 < x)) := by
      rw [hwc, filter_gt_filter_gt (c - 3600) (ta - 3600) (by linarith) A]
    have hAroom : ((A.filter (fun x => decide (ta - 3600 < x))).length : ℤ) < cap := by
      rw [← hwfilter]; exact hroom
    have hAle_ta : ∀ x ∈ A, x ≤ ta := fun x hx => le_trans (hAle x hx) hnow_ta
    have hA' : List.Pairwise (· ≤ ·) (A ++ [ta]) := by
      refine List.pairwise_append.2 ⟨hA, List.pairwise_singleton _ _, ?_⟩
      intro a ha b hb
      rw [List.mem_singleton] at hb
      subst hb
      exact hAle_ta a ha
    have hA'le : ∀ x ∈ A ++ [ta], x ≤ ta := by
      intro x hx
      rcases List.mem_append.1 hx with h | h
      · exact hAle_ta x h
      · rw [List.mem_singleton] at h; subst h; exact le_refl _
    have hw'A : w' = (A ++ [ta]).filter (fun x => decide (ta - 3600 < x)) := by
      rw [hw', hwfilter, List.filter_append]
      congr 1
      have hdec : decide (ta - 3600 < ta) = true := decide_eq_true (by linarith)
      simp [List.filter_singleton, hdec]
    have hWin' : WinOK cap (A ++ [ta]) := by
      intro t
      rw [List.countP_append]
      by_cases hta : inWindow t ta = true
      · have hta' : (decide (t - 3600 < ta) && decide (ta ≤ t)) = true := hta
        rw [Bool.and_eq_true] at hta'
        rcases hta' with ⟨hta1, hta2⟩
        have h4 : t - 3600 < ta := of_decide_eq_true hta1
        have h5 : ta ≤ t := of_decide_eq_true hta2
        have h1 : ([ta].countP (inWindow t)) = 1 := by
          simp [List.countP_cons, hta]
        rw [h1]
        have hmono : A.countP (inWindow t) ≤ A.countP (fun x => decide (ta - 3600 < x)) := by
          apply List.countP_mono_left
          intro a _ hp
          have hp' : (decide (t - 3600 < a) && decide (a ≤ t)) = true := hp
          rw [Bool.and_eq_true] at hp'
          rcases hp' with ⟨hp1, hp2⟩
          have h2 : t - 3600 < a := of_decide_eq_true hp1
          have h3 : a ≤ t := of_decide_eq_true hp2
          exact decide_eq_true (by linarith)
        have hcnt : (A.countP (fun x => decide (ta - 3600 < x)) : ℤ) < cap := by
          rw [List.countP_eq_length_filter]; exact hAroom
        omega
      · have h1 : ([ta].countP (inWindow t)) = 0 := by
          simp [List.countP_cons, hta]
        rw [h1]
        have := hWin t
        omega
    have hwin'len : ((w'.length : ℤ)) ≤ cap := by
      rw [hw']
      rw [List.length_append, List.length_singleton]
      push_cast
      omega
    have hwin'pair : List.Pairwise (· ≤ ·) w' := hw'A ▸ hA'.filter _
    rcases ih ta w' (A ++ [ta]) hds' hA' hA'le ⟨ta, le_refl _, hw'A⟩ hWin' with
      ⟨hsteps, hpairAll, hWinAll, hlen⟩
    rw [hrun]
    refine ⟨?_, ?_, ?_, ?_⟩
    · intro s hs
      rcases List.mem_cons.1 hs with h | h
      · subst h; exact ⟨hwin'len, hwin'pair⟩
      · exact hsteps s h
    · rw [List.map_cons]
      rw [show A ++ ta :: (runLimiter cap ta w' ds).map Prod.fst =
        (A ++ [ta]) ++ (runLimiter cap ta w' ds).map Prod.fst by simp]
      exact hpairAll
    · rw [List.map_cons]
      intro t
      have := hWinAll t
      rw [show A ++ ta :: (runLimiter cap ta w' ds).map Prod.fst =
        (A ++ [ta]) ++ (runLimiter cap ta w' ds).map Prod.fst by simp]
      exact this
    · simp [hlen]

/-! ## Claims -/

/-- C9: for every `DownloadRateLimiter` configured with `max_per_hour ≤ 0`,
`wait_for_slot` returns immediately — no sleeps, no exception — and leaves
the timestamp window unchanged, for every state of the pause and cancel
signals. -/
theorem c9_nonpositive_cap_immediate (cap : ℤ) (hcap : cap ≤ 0) (pu : ℚ)
    (cT : Option ℚ) (pfuel fuel : Nat) (now : ℚ) (w : List ℚ) :
    wait_for_slot cap pu cT pfuel fuel now w = ([], SlotOut.ret now w) := by
  unfold wait_for_slot
  rw [if_pos hcap]

theorem c9_nonpositive_cap_immediate_witness :
    ((0:ℤ) ≤ 0) ∧
    wait_for_slot 0 5 (some 1) 3 3 0 [1, 2] = ([], SlotOut.ret 0 [1, 2]) :=
  ⟨by decide, c9_nonpositive_cap_immediate 0 (by decide) 5 (some 1) 3 3 0 [1, 2]⟩

/-- C10 counterexample: a manifest file whose bytes are not valid UTF-8
makes the text-mode read inside `json.load` raise `UnicodeDecodeError`,
which the `except (OSError, json.JSONDecodeError)` clause does not catch —
`load_download_manifest` raises instead of returning an empty mapping, so
it is not total at its public interface. -/
theorem c10_counterexample :
    load_download_manifest (ManifestRead.unicodeDecodeError "bad utf-8".data) =
      Except.error "bad utf-8".data ∧
    load_download_manifest (ManifestRead.unicodeDecodeError "bad utf-8".data) ≠
      Except.ok [] := by
  refine ⟨rfl, ?_⟩
  intro h
  exact Except.noConfusion h

/-- C10 amended: `load_download_manifest` returns the empty mapping for a
missing file, an OS-level read error, a JSON decode error, and a decoded
document that is not an object; it returns the decoded mapping for an
object document; but a file whose bytes are not valid UTF-8 raises
(`UnicodeDecodeError` is caught by neither `OSError` nor
`json.JSONDecodeError`). -/
theorem c10_load_download_manifest_spec :
    (load_download_manifest ManifestRead.missing = Except.ok []) ∧
    (∀ m : Str, load_download_manifest (ManifestRead.osError m) = Except.ok []) ∧
    (∀ m : Str, load_download_manifest (ManifestRead.jsonDecodeError m) = Except.ok []) ∧
    (∀ f, load_download_manifest (ManifestRead.parsed (JVal.jobj f)) = Except.ok f) ∧
    (∀ j : JVal, (∀ f, j ≠ JVal.jobj f) →
      load_download_manifest (ManifestRead.parsed j) = Except.ok []) ∧
    (∀ m : Str, load_download_manifest (ManifestRead.unicodeDecodeError m) =
      Except.error m) := by
  refine ⟨rfl, fun _ => rfl, fun _ => rfl, fun _ => rfl, ?_, fun _ => rfl⟩
  intro j hj
  cases j with
  | jobj f => exact absurd rfl (hj f)
  | jnull => rfl
  | jbool b => rfl
  | jnum n => rfl
  | jstr s => rfl
  | jarr l => rfl

theorem c10_load_download_manifest_spec_witness :
    load_download_manifest (ManifestRead.parsed JVal.jnull) = Except.ok [] ∧
    load_download_manifest ManifestRead.missing = Except.ok [] :=
  ⟨c10_load_download_manifest_spec.2.2.2.2.1 JVal.jnull
      (fun f h => JVal.noConfusion h),
    c10_load_download_manifest_spec.1⟩

/-- C5 counterexample: the SSE generator of `job_events` does not close
when the run reaches a terminal state: after delivering an update carrying
the terminal `failed` status it is still parked on `await queue.get()`
(`StreamEnd.awaiting`), not closed. -/
theorem c5_counterexample :
    job_events JobStatus.running [JobStatus.running, JobStatus.failed] =
      ([SseEv.snapshot JobStatus.running, SseEv.update JobStatus.running,
        SseEv.update JobStatus.failed], StreamEnd.awaiting) ∧
    StreamEnd.awaiting ≠ StreamEnd.closed := by
  exact ⟨rfl, by decide⟩

theorem streamLoop_spec (views : List JobStatus) :
    streamLoop views = (views.map SseEv.update, StreamEnd.awaiting) := by
  induction views with
  | nil => rfl
  | cons v rest ih => simp [streamLoop, ih]

/-- C5 amended: every subscription yields exactly one snapshot event first,
before any update events, and one update per broadcast; but the stream does
not close when the run reaches a terminal state — it stays parked on the
queue (it ends only when the client disconnects). -/
theorem c5_stream_snapshot_first (initial : JobStatus) (views : List JobStatus) :
    (job_events initial views).1 =
      SseEv.snapshot initial :: views.map SseEv.update ∧
    (job_events initial views).1.head? = some (SseEv.snapshot initial) ∧
    (job_events initial views).2 = StreamEnd.awaiting := by
  unfold job_events
  rw [streamLoop_spec]
  exact ⟨rfl, rfl, rfl⟩

/-- C1 counterexample: with the window full (cap 1, one admission at time
0) a `wait_for_slot` call at time 0 sleeps 3600 seconds in a single
`time.sleep` — not in slices of at most 200 ms. -/
theorem c1_counterexample :
    (wait_for_slot 1 0 none 1 2 0 [0]).1 = [3600] ∧ ¬ ((3600:ℚ) ≤ 1/5) := by
  constructor
  · simp [wait_for_slot, waitLoopEv, pauseWait, pauseSet, cancelSet, pruneWindow,
      List.dropWhile]
    norm_num
  · norm_num

theorem pauseWait_not_paused (pu : ℚ) (cT : Option ℚ) (pf : Nat) (now : ℚ)
    (h : ¬ now < pu) : pauseWait pu cT pf now = ([], PauseOut.resumed now) := by
  cases pf with
  | zero => simp [pauseWait, pauseSet, h]
  | succ g => simp [pauseWait, pauseSet, h]

/-- C1 amended: when the trailing window is full, `wait_for_slot` sleeps
the entire computed delay in one uninterruptible `time.sleep`; the cancel
signal is re-checked only at the next loop iteration, after the full sleep
— so a cancel set during the sleep is observed only at its end (time
`t0 + 3600`), and cancellation latency during a rate-limit wait is bounded
by the remaining window time, not by a 200 ms polling interval. -/
theorem c1_cancel_observed_after_full_sleep (cap : ℤ) (hcap : 1 ≤ cap)
    (pu now tc t0 : ℚ) (rest w : List ℚ) (pfuel f : Nat)
    (hpu : pu ≤ now)
    (hpr : pruneWindow now w = t0 :: rest)
    (hfull : ¬ (((t0 :: rest).length : ℤ) < cap))
    (hnc : ¬ tc ≤ now)
    (htc : tc ≤ t0 + 3600) :
    wait_for_slot cap pu (some tc) pfuel (f + 2) now w =
      ([max (t0 + 3600 - now) 0], SlotOut.cancelledS (t0 + 3600)) := by
  have ht0 : ¬ (t0 ≤ now - 3600) := by
    have := head_dropWhile_false (p := fun t : ℚ => decide (t ≤ now - 3600)) hpr
    simpa using this
  have hd : now + max (t0 + 3600 - now) 0 = t0 + 3600 := by
    have : (0:ℚ) ≤ t0 + 3600 - now := by linarith [not_le.1 ht0]
    rw [max_eq_left this]; ring
  unfold wait_for_slot
  rw [if_neg (by omega)]
  rw [waitLoopEv]
  rw [show cancelSet (some tc) now = false by simp [cancelSet, hnc]]
  simp only [Bool.false_eq_true, if_false]
  rw [pauseWait_not_paused pu (some tc) pfuel now (by linarith)]
  simp only [hpr]
  rw [if_neg hfull]
  have hsecond : waitLoopEv cap pu (some tc) pfuel (f + 1)
      (now + max (t0 + 3600 - now) 0) (t0 :: rest) =
      ([], SlotOut.cancelledS (t0 + 3600)) := by
    rw [hd, waitLoopEv]
    rw [show cancelSet (some tc) (t0 + 3600) = true by
      simp [cancelSet]; linarith]
    simp
  rw [hsecond]
  simp

theorem c1_cancel_observed_after_full_sleep_witness :
    pruneWindow 0 [0] = [(0:ℚ)] ∧
    wait_for_slot 1 0 (some 1) 1 (0 + 2) 0 [0] =
      ([max ((0:ℚ) + 3600 - 0) 0], SlotOut.cancelledS (0 + 3600)) := by
  have hpr : pruneWindow 0 [0] = [(0:ℚ)] := by
    simp only [pruneWindow, List.dropWhile]
    rw [show (decide ((0:ℚ) ≤ 0 - 3600)) = false by norm_num]
  refine ⟨hpr, c1_cancel_observed_after_full_sleep 1 (by norm_num) 0 0 1 0 [] [0] 1 0
    (by norm_num) hpr (by norm_num) (by norm_num) (by norm_num)⟩

/-- C4: for every sequence of `wait_for_slot` calls with cap ≥ 1 (each call
made at or after the previous admission, the window starting empty): after
each call the window has length at most cap and is monotonically
non-decreasing; the admission times are non-decreasing; no trailing
3600-second interval contains more than cap admissions; and no call is
lost. -/
theorem c4_rate_limiter_invariants (cap : ℤ) (hcap : 1 ≤ cap) (t0 : ℚ)
    (ds : List ℚ) (hds : ∀ d ∈ ds, 0 ≤ d) :
    (∀ s ∈ runLimiter cap t0 [] ds,
      (s.2.length : ℤ) ≤ cap ∧ List.Pairwise (· ≤ ·) s.2) ∧
    List.Pairwise (· ≤ ·) ((runLimiter cap t0 [] ds).map Prod.fst) ∧
    WinOK cap ((runLimiter cap t0 [] ds).map Prod.fst) ∧
    (runLimiter cap t0 [] ds).length = ds.length := by
  have h := runLimiter_inv cap hcap ds t0 [] [] hds (by simp)
    (by intro x hx; cases hx)
    ⟨t0, le_refl _, by simp⟩
    (by intro t; simp only [List.countP_nil]; omega)
  rcases h with ⟨h1, h2, h3, h4⟩
  refine ⟨h1, by simpa using h2, ?_, h4⟩
  intro t
  have := h3 t
  simpa using this

theorem c4_rate_limiter_invariants_witness :
    (∀ s ∈ runLimiter 1 0 [] [0, 0],
      (s.2.length : ℤ) ≤ 1 ∧ List.Pairwise (· ≤ ·) s.2) ∧
    List.Pairwise (· ≤ ·) ((runLimiter 1 0 [] [0, 0]).map Prod.fst) ∧
    WinOK 1 ((runLimiter 1 0 [] [0, 0]).map Prod.fst) ∧
    (runLimiter 1 0 [] [0, 0]).length = 2 :=
  c4_rate_limiter_invariants 1 (by decide) 0 [0, 0] (by
    intro d hd
    rcases List.mem_cons.1 hd with h | h
    · rw [h]
    · rcases List.mem_singleton.1 h with h2
      rw [h2])

/-- C3 counterexample: a served job whose single track fails (the downloader
returns no file path) walks its queue end-to-end with no cancellation, yet
`download_job` ends it in the `failed` state with the run-level error
`All tracks failed to download` — an item-level fetch failure does move the
run to the Failed state when every item fails. -/
theorem finishJob_status (j3 : JobSt) :
    (finishJob j3).tracks = j3.tracks ∧
    (j3.tracks.any (fun kv => decide (kv.2.status = "downloaded".data)) = true →
      (finishJob j3).status = JobStatus.completed) ∧
    (j3.tracks.any (fun kv => decide (kv.2.status = "downloaded".data)) = false →
      (finishJob j3).status = JobStatus.failed ∧
      (finishJob j3).error = some "All tracks failed to download".data) := by
  by_cases h : j3.tracks.any (fun kv => decide (kv.2.status = "downloaded".data)) = true
  · rw [finishJob, if_pos h]
    exact ⟨rfl, fun _ => rfl, fun hf => absurd h (by simp [hf])⟩
  · rw [finishJob, if_neg h]
    exact ⟨rfl, fun ht => absurd ht h, fun _ => ⟨rfl, rfl⟩⟩

theorem download_job_resolved_okD (songs : List Song) (results : List DlResult)
    (j1 : JobSt) (hsongs : songs ≠ []) :
    ∃ j3, download_job_resolved songs (DlOut.okD results) j1 = finishJob j3 := by
  unfold download_job_resolved
  rw [if_neg hsongs]
  exact ⟨_, rfl⟩

theorem c3_counterexample :
    (download_job false false
        (SearchOut.okS [⟨"u".data, "T".data, ["A".data]⟩])
        (DlOut.okD [DlResult.pair none])
        ⟨JobStatus.queued, none, [], []⟩).map JobSt.status =
      Except.ok JobStatus.failed ∧
    (download_job false false
        (SearchOut.okS [⟨"u".data, "T".data, ["A".data]⟩])
        (DlOut.okD [DlResult.pair none])
        ⟨JobStatus.queued, none, [], []⟩).map JobSt.error =
      Except.ok (some "All tracks failed to download".data) := by
  constructor
  · rfl
  · rfl

theorem processItem_no_cancel (cfg : DtCfg) (st : DtSt) (i : Nat) (t : Track)
    (env : ItemEnv) (h : env.waitCancelled = false) :
    (processItem cfg st i t env).2.2 = false := by
  unfold processItem
  by_cases h1 : t.build_terms cfg.includeAlbum = []
  · simp [h1]
  · rw [if_neg h1]
    dsimp only
    cases hfe : (if cfg.sanitize t.title ≠ [] then env.fileExists else none) with
    | some p => simp
    | none =>
      by_cases h2 : t.identifier cfg.includeAlbum ≠ [] ∧
          t.identifier cfg.includeAlbum ∈ st.keys
      · simp [h2]
      · rw [if_neg h2]
        dsimp only
        by_cases h3 : cfg.dryRun
        · simp [h3]
        · simp only [h3, Bool.false_eq_true, if_false, h]
          cases henv : env.fetch with
          | ok info => cases info <;> simp
          | downloadError => simp
          | attributeError => simp

theorem dtLoop_no_cancel (cfg : DtCfg) :
    ∀ (items : List (Track × ItemEnv)) (p : Nat) (st : DtSt),
    (∀ it ∈ items, (Prod.snd it).waitCancelled = false) →
    (dtLoop cfg none items p st).2.2 = false := by
  intro items
  induction items with
  | nil => intro p st _; rfl
  | cons it rest ih =>
    intro p st hall
    rcases it with ⟨t, env⟩
    have henv : env.waitCancelled = false := hall (t, env) (List.mem_cons_self _ _)
    have hrest : ∀ it ∈ rest, (Prod.snd it).waitCancelled = false :=
      fun it hit => hall it (List.mem_cons_of_mem _ hit)
    rw [dtLoop]
    dsimp only
    rw [if_neg (by simp [cancelAtPos])]
    rw [if_neg (by rw [processItem_no_cancel cfg st (cfg.startIndex + p) t env henv]; simp)]
    dsimp only
    exact ih (p + 1) _ hrest

/-- C3 amended: in the CSV batch engine, item-level fetch failures never
escalate — a `download_tracks` run that observes no cancellation returns
normally (`run_downloader_for_csv` then returns success) no matter how many
items failed.  In the served-job engine the queue is also always walked
end-to-end, but the terminal state is `completed` only when at least one
track downloaded: a run in which every item failed ends `failed` with
`All tracks failed to download`. -/
theorem c3_terminal_state_policy :
    (∀ (cfg : DtCfg) (items : List (Track × ItemEnv)) (keys0 : List Str),
      (∀ it ∈ items, (Prod.snd it).waitCancelled = false) →
      (download_tracks cfg none items keys0).2.2 = false) ∧
    (∀ (ra hc : Bool) (songs : List Song) (results : List DlResult) (job0 : JobSt),
      (ra = false ∨ hc = true) → songs ≠ [] →
      ∃ j, download_job ra hc (SearchOut.okS songs) (DlOut.okD results) job0 =
          Except.ok j ∧
        (j.tracks.any (fun kv => decide (kv.2.status = "downloaded".data)) = true →
          j.status = JobStatus.completed) ∧
        (j.tracks.any (fun kv => decide (kv.2.status = "downloaded".data)) = false →
          j.status = JobStatus.failed ∧
          j.error = some "All tracks failed to download".data)) := by
  constructor
  · intro cfg items keys0 hall
    exact dtLoop_no_cancel cfg items 0 ⟨[], keys0⟩ hall
  · intro ra hc songs results job0 hauth hsongs
    have hcond : ¬ (ra = true ∧ ¬ hc = true) := by
      rcases hauth with h | h
      · rw [h]; simp
      · rw [h]; simp
    have hdl : download_job ra hc (SearchOut.okS songs) (DlOut.okD results) job0 =
        Except.ok (download_job_resolved songs (DlOut.okD results)
          { job0 with status := JobStatus.running,
                      logs := job0.logs ++ ["Starting search...".data] }) := by
      unfold download_job
      rw [if_neg hcond]
    obtain ⟨j3, hj3⟩ := download_job_resolved_okD songs results
      { job0 with status := JobStatus.running,
                  logs := job0.logs ++ ["Starting search...".data] } hsongs
    rw [hj3] at hdl
    refine ⟨finishJob j3, hdl, ?_, ?_⟩
    · intro h
      rw [(finishJob_status j3).1] at h
      exact (finishJob_status j3).2.1 h
    · intro h
      rw [(finishJob_status j3).1] at h
      exact (finishJob_status j3).2.2 h

theorem c3_terminal_state_policy_witness :
    (download_tracks cfgWit none [] []).2.2 = false ∧
    (∃ j, download_job false false
        (SearchOut.okS [⟨"u".data, "T".data, ["A".data]⟩]) (DlOut.okD [])
        ⟨JobStatus.queued, none, [], []⟩ = Except.ok j ∧
      (j.tracks.any (fun kv => decide (kv.2.status = "downloaded".data)) = true →
        j.status = JobStatus.completed) ∧
      (j.tracks.any (fun kv => decide (kv.2.status = "downloaded".data)) = false →
        j.status = JobStatus.failed ∧
        j.error = some "All tracks failed to download".data)) :=
  ⟨c3_terminal_state_policy.1 cfgWit [] []
      (fun it hit => absurd hit (List.not_mem_nil it)),
    c3_terminal_state_policy.2 false false [⟨"u".data, "T".data, ["A".data]⟩] []
      ⟨JobStatus.queued, none, [], []⟩ (Or.inl rfl) (by simp)⟩

/-- C7 counterexample: the track whose title and artists are each a single
space has an empty identity key (strip-lower leaves nothing), yet it is not
skipped: `processItem` emits a start event (a fetch is initiated) and
records a downloaded entry. -/
theorem c7_counterexample :
    trackBlank.identifier true = [] ∧
    ((processItem cfgWit ⟨[], []⟩ 1 trackBlank envFetchOne).2.1.countP
      (fun e => match e with | DtEv.start _ _ _ => true | _ => false)) = 1 ∧
    (processItem cfgWit ⟨[], []⟩ 1 trackBlank envFetchOne).1.entries.length = 1 := by
  refine ⟨by decide, by decide, by decide⟩

theorem record_filepath_nil_keys (st : DtSt) (fp : Option Str) :
    (record_filepath [] st fp).keys = st.keys := by
  cases fp <;> simp [record_filepath]

theorem foldl_record_filepath_nil_keys (es : List (Option Str)) :
    ∀ st : DtSt, ((es.foldl (record_filepath []) st)).keys = st.keys := by
  induction es with
  | nil => intro st; rfl
  | cons e rest ih =>
    intro st
    rw [List.foldl_cons, ih, record_filepath_nil_keys]

theorem recordInfo_nil_keys (info : YInfo) (st : DtSt) :
    (recordInfo [] st info).keys = st.keys := by
  cases info with
  | noneI => rfl
  | dictI fp entries =>
    cases entries with
    | none => exact record_filepath_nil_keys st fp
    | some es =>
      by_cases h : es = []
      · simp [recordInfo, h, record_filepath_nil_keys]
      · simp [recordInfo, h, foldl_record_filepath_nil_keys]
  | listI es => exact foldl_record_filepath_nil_keys es st

/-- C7 amended: the identity key is empty when both required fields are
empty, and an empty key means both required fields strip to nothing
(whitespace-only).  An item is skipped-and-reported without any store
lookup exactly when a required field is strictly empty (its search terms
are empty).  An item whose key is empty but whose fields are
whitespace-only is NOT skipped — it proceeds to search/fetch — but it is
never matched against the completion store and never added to the
skip-set (falsy keys bypass both). -/
theorem c7_key_and_skip_semantics (t : Track) (incl : Bool) :
    (t.title = [] ∧ t.artists = [] → t.identifier incl = []) ∧
    (t.identifier incl = [] → pyStrip t.title = [] ∧ pyStrip t.artists = []) ∧
    (t.build_terms incl = [] ↔ (t.title = [] ∨ t.artists = [])) ∧
    (∀ (cfg : DtCfg) (st : DtSt) (i : Nat) (env : ItemEnv),
      cfg.includeAlbum = incl →
      (t.build_terms incl = [] →
        processItem cfg st i t env =
          (st, [DtEv.log "Skipping row with missing track and artist info.".data],
            false)) ∧
      (t.identifier incl = [] →
        (processItem cfg st i t env).1.keys = st.keys)) := by
  refine ⟨?_, ?_, ?_, ?_⟩
  · intro ⟨h1, h2⟩
    simp [Track.identifier, h1, h2]
  · intro hkey
    by_cases hguard : t.title = [] ∧ t.artists = []
    · constructor
      · rw [hguard.1]; rfl
      · rw [hguard.2]; rfl
    · rw [Track.identifier, if_neg hguard] at hkey
      have hall : ∀ s ∈ (([pyLower (pyStrip t.title), pyLower (pyStrip t.artists)] ++
          (if incl ∧ t.album ≠ [] then [pyLower (pyStrip t.album)] else [])).filter
            (fun p => p ≠ [])), s ≠ [] := by
        intro s hs
        exact of_decide_eq_true (List.mem_filter.1 hs).2
      have hnil := (joinSep_eq_nil_iff _ _ hall).1 hkey
      rw [List.filter_eq_nil] at hnil
      constructor
      · have h1 : pyLower (pyStrip t.title) = [] := by
          have := hnil (pyLower (pyStrip t.title)) (by simp)
          simpa using this
        exact List.map_eq_nil.1 h1
      · have h2 : pyLower (pyStrip t.artists) = [] := by
          have := hnil (pyLower (pyStrip t.artists)) (by simp)
          simpa using this
        exact List.map_eq_nil.1 h2
  · constructor
    · intro hterms
      by_contra hne
      push_neg at hne
      rw [Track.build_terms, if_neg (by tauto)] at hterms
      exact joinSep_ne_nil_of_mem_ne_nil _ _ "audio".data
        (by simp) (by decide) hterms
    · intro h
      rw [Track.build_terms, if_pos h]
  · intro cfg st i env hcfg
    constructor
    · intro hterms
      rw [processItem, hcfg, if_pos hterms]
    · intro hkey
      rw [processItem, hcfg]
      by_cases hterms : t.build_terms incl = []
      · rw [if_pos hterms]
      · rw [if_neg hterms]
        dsimp only
        cases hfe : (if cfg.sanitize t.title ≠ [] then env.fileExists else none) with
        | some p =>
          simp [hkey]
        | none =>
          have hcnot : ¬ (t.identifier incl ≠ [] ∧ t.identifier incl ∈ st.keys) := by
            rw [hkey]; simp
          rw [if_neg hcnot]
          dsimp only
          by_cases h3 : cfg.dryRun
          · simp [h3]
          · simp only [h3, Bool.false_eq_true, if_false]
            by_cases h4 : env.waitCancelled
            · simp [h4]
            · simp only [h4, Bool.false_eq_true, if_false]
              cases henv : env.fetch with
              | ok info =>
                cases info with
                | noneI => rfl
                | dictI fp entries => simp [hkey, recordInfo_nil_keys]
                | listI es => simp [hkey, recordInfo_nil_keys]
              | downloadError => rfl
              | attributeError => rfl

theorem c7_key_and_skip_semantics_witness :
    ((Track.mk [] [] []).identifier true = []) ∧
    (pyStrip trackBlank.title = [] ∧ pyStrip trackBlank.artists = []) ∧
    ((Track.mk [] "b".data []).build_terms true = []) ∧
    (processItem cfgWit ⟨[], []⟩ 1 (Track.mk [] "b".data []) envFetchOne =
      (⟨[], []⟩, [DtEv.log "Skipping row with missing track and artist info.".data],
        false)) ∧
    ((processItem cfgWit ⟨[], []⟩ 1 trackBlank envFetchOne).1.keys = []) :=
  ⟨(c7_key_and_skip_semantics (Track.mk [] [] []) true).1 ⟨rfl, rfl⟩,
   (c7_key_and_skip_semantics trackBlank true).2.1 (by decide),
   (c7_key_and_skip_semantics (Track.mk [] "b".data []) true).2.2.1.2 (Or.inl rfl),
   ((c7_key_and_skip_semantics (Track.mk [] "b".data []) true).2.2.2 cfgWit
      ⟨[], []⟩ 1 envFetchOne rfl).1
     ((c7_key_and_skip_semantics (Track.mk [] "b".data []) true).2.2.1.2 (Or.inl rfl)),
   ((c7_key_and_skip_semantics trackBlank true).2.2.2 cfgWit
      ⟨[], []⟩ 1 envFetchOne rfl).2 (by decide)⟩

/-- C8: reconciliation keeps exactly the manifest entries whose locator —
resolved against the output directory when not absolute — passes the
existence probe; the skip-set is exactly the kept keys; an entry failing
the probe is dropped from both the cleaned manifest and the skip-set. -/
theorem c8_reconcile_spec (dir : Str) (isAbs ex : Str → Bool)
    (manifest : List (Str × Str)) (hnd : (manifest.map Prod.fst).Nodup) :
    (∀ kv : Str × Str, kv ∈ (reconcileManifest dir isAbs ex manifest).1 ↔
      kv ∈ manifest ∧ ex (if isAbs kv.2 then kv.2 else dir ++ '/' :: kv.2) = true) ∧
    (reconcileManifest dir isAbs ex manifest).2 =
      (reconcileManifest dir isAbs ex manifest).1.map Prod.fst ∧
    (∀ kv ∈ manifest, ex (if isAbs kv.2 then kv.2 else dir ++ '/' :: kv.2) = false →
      kv ∉ (reconcileManifest dir isAbs ex manifest).1 ∧
      kv.1 ∉ (reconcileManifest dir isAbs ex manifest).2) := by
  refine ⟨?_, rfl, ?_⟩
  · intro kv
    simp [reconcileManifest, List.mem_filter]
  · intro kv hkv hex
    constructor
    · intro hin
      have h2 := (List.mem_filter.1 hin).2
      rw [hex] at h2
      cases h2
    · intro hin
      rcases List.mem_map.1 hin with ⟨kv', hkv', hfst⟩
      have hm : kv' ∈ manifest := (List.mem_filter.1 hkv').1
      have hex' := (List.mem_filter.1 hkv').2
      have heq : kv' = kv := List.inj_on_of_nodup_map hnd hm hkv hfst
      rw [heq, hex] at hex'
      cases hex'

theorem c8_reconcile_spec_witness :
    (("k".data, "x".data) ∈ (reconcileManifest "d".data absNone exWit manWit).1 ↔
      ("k".data, "x".data) ∈ manWit ∧
      exWit (if absNone "x".data then "x".data
             else "d".data ++ '/' :: "x".data) = true) ∧
    (("k2".data, "y".data) ∉ (reconcileManifest "d".data absNone exWit manWit).1 ∧
      ("k2".data : Str) ∉ (reconcileManifest "d".data absNone exWit manWit).2) :=
  ⟨(c8_reconcile_spec "d".data absNone exWit manWit (by decide)).1
      ("k".data, "x".data),
    (c8_reconcile_spec "d".data absNone exWit manWit (by decide)).2.2
      ("k2".data, "y".data) (by decide) (by decide)⟩

/-- C2 counterexample: a two-item run whose first item fetches successfully
and which is cancelled at the second item's loop top: one item has
succeeded (one downloaded entry is in flight when `DownloadCancelled`
propagates), yet `run_downloader_for_csv` performs zero
`save_download_manifest` calls — the persisted manifest is missing all of
the run's successful records, not just the in-flight item. -/
theorem c2_counterexample :
    (run_downloader_for_csv cfgWit opsWit absNone exNone exAll relNone
        "best".data "out".data [] itemsC2 (some 1)).saves = [] ∧
    (run_downloader_for_csv cfgWit opsWit absNone exNone exAll relNone
        "best".data "out".data [] itemsC2 (some 1)).code = 1 ∧
    (download_tracks cfgWit (some 1) itemsC2 []).1.entries.length = 1 := by
  refine ⟨by decide, by decide, by decide⟩

theorem manifestSet_mem_keys (m : List (Str × Str)) (k v : Str) :
    k ∈ (manifestSet m k v).map Prod.fst := by
  unfold manifestSet
  by_cases h : m.any (fun kv => decide (kv.1 = k)) = true
  · rw [if_pos h]
    rcases List.any_eq_true.1 h with ⟨kv, hkv, hdec⟩
    have hk : kv.1 = k := of_decide_eq_true hdec
    rw [List.map_map]
    refine List.mem_map.2 ⟨kv, hkv, ?_⟩
    simp [Function.comp, hk]
  · rw [if_neg h]
    simp

theorem manifestSet_keys_mono (m : List (Str × Str)) (k v k' : Str)
    (h : k' ∈ m.map Prod.fst) : k' ∈ (manifestSet m k v).map Prod.fst := by
  unfold manifestSet
  by_cases hc : m.any (fun kv => decide (kv.1 = k)) = true
  · rw [if_pos hc]
    rcases List.mem_map.1 h with ⟨kv, hkv, hfst⟩
    rw [List.map_map]
    refine List.mem_map.2 ⟨kv, hkv, ?_⟩
    by_cases hkk : kv.1 = k
    · simp only [Function.comp_apply, if_pos hkk]
      rw [← hfst, ← hkk]
    · simp only [Function.comp_apply, if_neg hkk]
      exact hfst
  · rw [if_neg hc]
    rw [List.map_append]
    exact List.mem_append_left _ h

theorem persistLoop_keys_mono (ex2 : Str → Bool) (relTo : Str → Option Str) :
    ∀ (entries : List (Str × Str)) (m : List (Str × Str)) (k' : Str),
    k' ∈ m.map Prod.fst →
    k' ∈ ((persistLoop ex2 relTo m entries).getLastD m).map Prod.fst := by
  intro entries
  induction entries with
  | nil => intro m k' h; exact h
  | cons e rest ih =>
    intro m k' h
    rcases e with ⟨fp, k⟩
    rw [persistLoop]
    by_cases hc : k ≠ [] ∧ ex2 fp = true
    · rw [if_pos hc]
      rw [List.getLastD_cons]
      exact ih _ k' (manifestSet_keys_mono _ _ _ _ h)
    · rw [if_neg hc]
      exact ih m k' h

theorem persistLoop_length (ex2 : Str → Bool) (relTo : Str → Option Str) :
    ∀ (entries : List (Str × Str)) (m : List (Str × Str)),
    (persistLoop ex2 relTo m entries).length =
      (entries.filter (fun e => decide (e.2 ≠ []) && ex2 e.1)).length := by
  intro entries
  induction entries with
  | nil => intro m; rfl
  | cons e rest ih =>
    intro m
    rcases e with ⟨fp, k⟩
    rw [persistLoop]
    by_cases hc : k ≠ [] ∧ ex2 fp = true
    · rw [if_pos hc, List.filter_cons_of_pos (by simp [hc.1, hc.2])]
      simp [ih]
    · rw [if_neg hc, List.filter_cons_of_neg (by
        simp only [Bool.and_eq_true, decide_eq_true_eq]
        exact hc)]
      exact ih m

theorem persistLoop_last_contains (ex2 : Str → Bool) (relTo : Str → Option Str) :
    ∀ (entries : List (Str × Str)) (m : List (Str × Str)) (fp k : Str),
    (fp, k) ∈ entries → k ≠ [] → ex2 fp = true →
    k ∈ ((persistLoop ex2 relTo m entries).getLastD m).map Prod.fst := by
  intro entries
  induction entries with
  | nil => intro m fp k h; cases h
  | cons e rest ih =>
    intro m fp k hmem hk hex
    rcases e with ⟨fp', k'⟩
    rw [persistLoop]
    rcases List.mem_cons.1 hmem with heq | hrest
    · injection heq with h1 h2
      subst h1
      subst h2
      rw [if_pos ⟨hk, hex⟩]
      rw [List.getLastD_cons]
      exact persistLoop_keys_mono ex2 relTo rest _ k (manifestSet_mem_keys _ _ _)
    · by_cases hc : k' ≠ [] ∧ ex2 fp' = true
      · rw [if_pos hc, List.getLastD_cons]
        exact ih _ fp k hrest hk hex
      · rw [if_neg hc]
        exact ih m fp k hrest hk hex

/-- C2 amended: the manifest is merged and persisted once per successfully
fetched eligible entry, but only after the whole track loop has finished
without a propagating `DownloadCancelled`: a cancelled run performs zero
saves (the file retains its pre-run content, losing every record of this
run's successes), while a completed run performs one save per eligible
entry and the final saved payload contains every eligible key. -/
theorem c2_manifest_persist_policy (cfg : DtCfg) (ops : PathOps)
    (isAbs exrec ex2 : Str → Bool) (relTo : Str → Option Str)
    (afmt dir : Str) (manifest : List (Str × Str))
    (items : List (Track × ItemEnv)) (cancelAt : Option Nat) :
    ((download_tracks cfg cancelAt items
        (reconcileManifest dir isAbs exrec manifest).2).2.2 = true →
      (run_downloader_for_csv cfg ops isAbs exrec ex2 relTo afmt dir manifest
        items cancelAt).saves = [] ∧
      (run_downloader_for_csv cfg ops isAbs exrec ex2 relTo afmt dir manifest
        items cancelAt).code = 1) ∧
    ((download_tracks cfg cancelAt items
        (reconcileManifest dir isAbs exrec manifest).2).2.2 = false →
      items ≠ [] →
      (run_downloader_for_csv cfg ops isAbs exrec ex2 relTo afmt dir manifest
          items cancelAt).saves.length =
        (((download_tracks cfg cancelAt items
            (reconcileManifest dir isAbs exrec manifest).2).1.entries.map
          (fun e => (resolve_entry_path ops ex2 afmt e.1, e.2))).filter
            (fun e => decide (e.2 ≠ []) && ex2 e.1)).length ∧
      (∀ fp k : Str,
        (fp, k) ∈ ((download_tracks cfg cancelAt items
            (reconcileManifest dir isAbs exrec manifest).2).1.entries.map
          (fun e => (resolve_entry_path ops ex2 afmt e.1, e.2))) →
        k ≠ [] → ex2 fp = true →
        k ∈ (((run_downloader_for_csv cfg ops isAbs exrec ex2 relTo afmt dir
            manifest items cancelAt).saves.getLastD
          (reconcileManifest dir isAbs exrec manifest).1).map Prod.fst))) := by
  constructor
  · intro hr
    by_cases hitems : items = []
    · exfalso
      rw [hitems] at hr
      simp [download_tracks, dtLoop] at hr
    · unfold run_downloader_for_csv
      rw [if_neg hitems, if_pos hr]
      exact ⟨rfl, rfl⟩
  · intro hr hitems
    unfold run_downloader_for_csv
    rw [if_neg hitems, if_neg (by rw [hr]; simp)]
    constructor
    · exact persistLoop_length ex2 relTo _ _
    · intro fp k hmem hk hex
      exact persistLoop_last_contains ex2 relTo _ _ fp k hmem hk hex

theorem c2_manifest_persist_policy_witness :
    (run_downloader_for_csv cfgWit opsWit absNone exNone exAll relNone
        "best".data "out".data [] itemsC2 none).saves.length = 2 ∧
    trackA.identifier true ∈
      (((run_downloader_for_csv cfgWit opsWit absNone exNone exAll relNone
          "best".data "out".data [] itemsC2 none).saves.getLastD
        (reconcileManifest "out".data absNone exNone []).1).map Prod.fst) := by
  have h := (c2_manifest_persist_policy cfgWit opsWit absNone exNone exAll
    relNone "best".data "out".data [] itemsC2 none).2 (by decide) (by decide)
  refine ⟨h.1.trans (by decide), ?_⟩
  exact h.2 "f1.mp3".data (trackA.identifier true) (by decide) (by decide)
    (by decide)

theorem pauseWait_sleeps (pu : ℚ) (cT : Option ℚ) :
    ∀ (f : Nat) (now : ℚ), ∀ d ∈ (pauseWait pu cT f now).1, d = 1/10 := by
  intro f
  induction f with
  | zero =>
    intro now d hd
    rw [pauseWait] at hd
    by_cases h : pauseSet pu now = true <;> simp [h] at hd
  | succ g ih =>
    intro now d hd
    rw [pauseWait] at hd
    by_cases h : pauseSet pu now = true
    · rw [if_pos h] at hd
      by_cases hc : cancelSet cT now = true
      · rw [if_pos hc] at hd
        cases hd
      · rw [if_neg hc] at hd
        rcases List.mem_cons.1 hd with h1 | h1
        · exact h1
        · exact ih (now + 1/10) d h1
    · rw [if_neg h] at hd
      cases hd

theorem pauseWait_resumed (pu : ℚ) (cT : Option ℚ) :
    ∀ (f : Nat) (now t : ℚ),
    (pauseWait pu cT f now).2 = PauseOut.resumed t →
    ¬ t < pu ∧ (t = now ∨ (pu ≤ t ∧ t < pu + 1/10)) := by
  intro f
  induction f with
  | zero =>
    intro now t h
    rw [pauseWait] at h
    by_cases hp : pauseSet pu now = true
    · rw [if_pos hp] at h; cases h
    · rw [if_neg hp] at h
      injection h with h1
      subst h1
      exact ⟨by simpa [pauseSet] using hp, Or.inl rfl⟩
  | succ g ih =>
    intro now t h
    rw [pauseWait] at h
    by_cases hp : pauseSet pu now = true
    · rw [if_pos hp] at h
      by_cases hc : cancelSet cT now = true
      · rw [if_pos hc] at h; cases h
      · rw [if_neg hc] at h
        have hrec := ih (now + 1/10) t h
        have hnowpu : now < pu := by simpa [pauseSet] using hp
        refine ⟨hrec.1, Or.inr ?_⟩
        rcases hrec.2 with h1 | h1
        · constructor
          · exact not_lt.1 hrec.1
          · rw [h1]; linarith
        · exact h1
    · rw [if_neg hp] at h
      injection h with h1
      subst h1
      exact ⟨by simpa [pauseSet] using hp, Or.inl rfl⟩

theorem pauseWait_cancelled (pu : ℚ) (cT : Option ℚ) :
    ∀ (f : Nat) (now t : ℚ),
    (pauseWait pu cT f now).2 = PauseOut.cancelledP t →
    cancelSet cT t = true ∧ pauseSet pu t = true := by
  intro f
  induction f with
  | zero =>
    intro now t h
    rw [pauseWait] at h
    by_cases hp : pauseSet pu now = true <;> simp [hp] at h
  | succ g ih =>
    intro now t h
    rw [pauseWait] at h
    by_cases hp : pauseSet pu now = true
    · rw [if_pos hp] at h
      by_cases hc : cancelSet cT now = true
      · rw [if_pos hc] at h
        injection h with h1
        subst h1
        exact ⟨hc, hp⟩
      · rw [if_neg hc] at h
        exact ih (now + 1/10) t h
    · rw [if_neg hp] at h
      cases h

theorem waitLoopEv_admitted (cap : ℤ) (pu : ℚ) (cT : Option ℚ) (pf : Nat) :
    ∀ (fuel : Nat) (now ta : ℚ) (w w' : List ℚ),
    (waitLoopEv cap pu cT pf fuel now w).2 = SlotOut.admitted ta w' →
    pu ≤ ta ∧ ∃ pr : List ℚ, w' = pr ++ [ta] := by
  intro fuel
  induction fuel with
  | zero => intro now ta w w' h; cases h
  | succ f ih =>
    intro now ta w w' h
    rw [waitLoopEv] at h
    by_cases hc : cancelSet cT now = true
    · rw [if_pos hc] at h; cases h
    · rw [if_neg hc] at h
      rcases hp : pauseWait pu cT pf now with ⟨ds, po⟩
      rw [hp] at h
      cases po with
      | cancelledP t => cases h
      | outP => cases h
      | resumed t =>
        dsimp only at h
        by_cases hroom : ((pruneWindow t w).length : ℤ) < cap
        · rw [if_pos hroom] at h
          injection h with h1 h2
          subst h1
          subst h2
          have hres := pauseWait_resumed pu cT pf now t (by rw [hp])
          exact ⟨not_lt.1 hres.1, ⟨pruneWindow t w, rfl⟩⟩
        · rw [if_neg hroom] at h
          rcases hpr : pruneWindow t w with _ | ⟨t0, rest⟩
          · rw [hpr] at h; cases h
          · rw [hpr] at h
            dsimp only at h
            exact ih _ _ _ _ h

theorem pairwise_le_of_all_eq (L : List Nat) (i : Nat) (h : ∀ n ∈ L, n = i) :
    List.Pairwise (· ≤ ·) L := by
  induction L with
  | nil => exact List.Pairwise.nil
  | cons a rest ih =>
    refine List.pairwise_cons.2 ⟨?_, ih (fun n hn => h n (List.mem_cons_of_mem _ hn))⟩
    intro b hb
    rw [h a (List.mem_cons_self _ _), h b (List.mem_cons_of_mem _ hb)]

theorem processItem_ev_index (cfg : DtCfg) (st : DtSt) (i : Nat) (t : Track)
    (env : ItemEnv) :
    ∀ e ∈ (processItem cfg st i t env).2.1, ∀ n, evIndex e = some n → n = i := by
  unfold processItem
  by_cases h1 : t.build_terms cfg.includeAlbum = []
  · rw [if_pos h1]
    intro e he n hn
    simp only [List.mem_singleton] at he
    subst he
    cases hn
  · rw [if_neg h1]
    dsimp only
    cases hfe : (if cfg.sanitize t.title ≠ [] then env.fileExists else none) with
    | some p =>
      intro e he n hn
      simp only [List.mem_cons, List.mem_singleton, List.not_mem_nil, or_false] at he
      rcases he with he | he <;> subst he <;> simp [evIndex] at hn <;> omega
    | none =>
      by_cases h2 : t.identifier cfg.includeAlbum ≠ [] ∧
          t.identifier cfg.includeAlbum ∈ st.keys
      · rw [if_pos h2]
        intro e he n hn
        simp only [List.mem_cons, List.mem_singleton, List.not_mem_nil, or_false] at he
        rcases he with he | he <;> subst he <;> simp [evIndex] at hn <;> omega
      · rw [if_neg h2]
        dsimp only
        by_cases h3 : cfg.dryRun
        · rw [if_pos h3]
          intro e he n hn
          simp only [List.cons_append, List.nil_append, List.mem_cons,
            List.mem_singleton, List.not_mem_nil, or_false] at he
          rcases he with he | he | he <;> subst he <;> simp [evIndex] at hn <;> omega
        · rw [if_neg h3]
          by_cases h4 : env.waitCancelled = true
          · rw [if_pos h4]
            intro e he n hn
            simp only [List.mem_cons, List.mem_singleton, List.not_mem_nil,
              or_false] at he
            rcases he with he | he <;> subst he <;> simp [evIndex] at hn <;> omega
          · rw [if_neg h4]
            cases henv : env.fetch with
            | ok info =>
              cases info with
              | noneI =>
                intro e he n hn
                simp only [List.mem_cons, List.mem_singleton, List.not_mem_nil,
                  or_false] at he
                rcases he with he | he <;> subst he <;> simp [evIndex] at hn <;> omega
              | dictI fp entries =>
                intro e he n hn
                simp only [List.cons_append, List.nil_append, List.mem_cons,
                  List.mem_singleton, List.not_mem_nil, or_false] at he
                rcases he with he | he | he <;> subst he <;> simp [evIndex] at hn <;>
                  omega
              | listI es =>
                intro e he n hn
                simp only [List.cons_append, List.nil_append, List.mem_cons,
                  List.mem_singleton, List.not_mem_nil, or_false] at he
                rcases he with he | he | he <;> subst he <;> simp [evIndex] at hn <;>
                  omega
            | downloadError =>
              intro e he n hn
              simp only [List.cons_append, List.nil_append, List.mem_cons,
                List.mem_singleton, List.not_mem_nil, or_false] at he
              rcases he with he | he | he | he <;> subst he <;>
                simp [evIndex] at hn <;> omega
            | attributeError =>
              intro e he n hn
              simp only [List.cons_append, List.nil_append, List.mem_cons,
                List.mem_singleton, List.not_mem_nil, or_false] at he
              rcases he with he | he | he | he <;> subst he <;>
                simp [evIndex] at hn <;> omega

theorem dtLoop_ev_indices (cfg : DtCfg) (ca : Option Nat) :
    ∀ (items : List (Track × ItemEnv)) (p : Nat) (st : DtSt),
    (∀ n ∈ (dtLoop cfg ca items p st).2.1.filterMap evIndex,
      cfg.startIndex + p ≤ n) ∧
    List.Pairwise (· ≤ ·) ((dtLoop cfg ca items p st).2.1.filterMap evIndex) := by
  intro items
  induction items with
  | nil =>
    intro p st
    refine ⟨?_, List.Pairwise.nil⟩
    intro n hn
    cases hn
  | cons it rest ih =>
    intro p st
    rcases it with ⟨t, env⟩
    rw [dtLoop]
    by_cases hca : cancelAtPos ca p = true
    · rw [if_pos hca]
      refine ⟨?_, List.Pairwise.nil⟩
      intro n hn
      cases hn
    · rw [if_neg hca]
      dsimp only
      have hitem : ∀ n ∈ ((processItem cfg st (cfg.startIndex + p) t env).2.1.filterMap
          evIndex), n = cfg.startIndex + p := by
        intro n hn
        rcases List.mem_filterMap.1 hn with ⟨e, he, hidx⟩
        exact processItem_ev_index cfg st (cfg.startIndex + p) t env e he n hidx
      by_cases hr : (processItem cfg st (cfg.startIndex + p) t env).2.2 = true
      · rw [if_pos hr]
        refine ⟨?_, pairwise_le_of_all_eq _ _ hitem⟩
        intro n hn
        rw [hitem n hn]
      · rw [if_neg hr]
        dsimp only
        rw [List.filterMap_append]
        rcases ih (p + 1) ((processItem cfg st (cfg.startIndex + p) t env).1) with
          ⟨hb, hpw⟩
        constructor
        · intro n hn
          rcases List.mem_append.1 hn with h | h
          · rw [hitem n h]
          · have := hb n h
            omega
        · refine List.pairwise_append.2 ⟨pairwise_le_of_all_eq _ _ hitem, hpw, ?_⟩
          intro a ha b hb2
          rw [hitem a ha]
          have := hb b hb2
          omega

/-- C6: while the pause signal is set and cancel is not, the worker makes
no rate-limiter admission and initiates no fetch: the shared pause-poll
loop sleeps in exact 0.1-second (≤ 100 ms) slices, checking cancel before
each sleep; it returns only once the pause has cleared (within one polling
interval of the clearing time when it had been waiting), and it raises
when cancel is observed while still paused; any admission `wait_for_slot`
makes carries a timestamp at or after the pause-clear time, appended at
the admission instant; and the main loop emits its per-item events in
non-decreasing item order, so after a resume processing continues with the
next unprocessed item rather than restarting. -/
theorem c6_pause_correctness :
    (∀ (pu : ℚ) (cT : Option ℚ) (f : Nat) (now : ℚ),
      ∀ d ∈ (pauseWait pu cT f now).1, d = 1/10) ∧
    (∀ (pu : ℚ) (cT : Option ℚ) (f : Nat) (now t : ℚ),
      (pauseWait pu cT f now).2 = PauseOut.resumed t →
      ¬ t < pu ∧ (t = now ∨ (pu ≤ t ∧ t < pu + 1/10))) ∧
    (∀ (pu : ℚ) (cT : Option ℚ) (f : Nat) (now t : ℚ),
      (pauseWait pu cT f now).2 = PauseOut.cancelledP t →
      cancelSet cT t = true ∧ pauseSet pu t = true) ∧
    (∀ (cap : ℤ) (pu : ℚ) (cT : Option ℚ) (pf fuel : Nat) (now ta : ℚ)
        (w w' : List ℚ),
      (waitLoopEv cap pu cT pf fuel now w).2 = SlotOut.admitted ta w' →
      pu ≤ ta ∧ ∃ pr : List ℚ, w' = pr ++ [ta]) ∧
    (∀ (cfg : DtCfg) (ca : Option Nat) (items : List (Track × ItemEnv))
        (st : DtSt),
      List.Pairwise (· ≤ ·) ((dtLoop cfg ca items 0 st).2.1.filterMap evIndex)) :=
  ⟨pauseWait_sleeps, pauseWait_resumed, pauseWait_cancelled,
    fun cap pu cT pf => waitLoopEv_admitted cap pu cT pf,
    fun cfg ca items st => (dtLoop_ev_indices cfg ca items 0 st).2⟩

theorem c6_pause_correctness_witness :
    (∀ d ∈ (pauseWait 1 none 20 0).1, d = 1/10) ∧
    (¬ (5:ℚ) < 0 ∧ ((5:ℚ) = 5 ∨ ((0:ℚ) ≤ 5 ∧ (5:ℚ) < 0 + 1/10))) ∧
    (cancelSet (some 0) 0 = true ∧ pauseSet 1 0 = true) ∧
    ((0:ℚ) ≤ 5 ∧ ∃ pr : List ℚ, [(5:ℚ)] = pr ++ [5]) ∧
    List.Pairwise (· ≤ ·)
      ((dtLoop cfgWit none itemsC2 0 ⟨[], []⟩).2.1.filterMap evIndex) := by
  refine ⟨c6_pause_correctness.1 1 none 20 0, ?_, ?_, ?_,
    c6_pause_correctness.2.2.2.2 cfgWit none itemsC2 ⟨[], []⟩⟩
  · exact c6_pause_correctness.2.1 0 none 1 5 5
      (by rw [pauseWait_not_paused 0 none 1 5 (by norm_num)])
  · exact c6_pause_correctness.2.2.1 1 (some 0) 1 0 0
      (by norm_num [pauseWait, pauseSet, cancelSet])
  · exact c6_pause_correctness.2.2.2.1 1 0 none 1 1 5 5 [] [5]
      (by norm_num [waitLoopEv, pauseWait, pauseSet, cancelSet, pruneWindow])

end HomieDl
